import Mathlib

/-!
# Verification of the agent-lab portfolio simulation/allocation core

This file gives a shallow embedding, in Lean 4, of the portfolio
simulation and allocation core of the `agent-lab` repository, and proves
(or refutes) the frozen specification claims about it.

Modelling conventions:
* Python `float` values are modelled as exact rationals (`ℚ`); the spec's
  1e-9 tolerances become exact rational bounds.
* Python `dict[str, float]` values are modelled as association lists
  `List (String × ℚ)` (insertion-ordered, as Python dicts are); a dict
  produced by Python has no duplicate keys, which theorems assume through
  explicit `Nodup` hypotheses where it matters.
* Python exceptions are modelled with `Except`: a raised exception is an
  `Except.error` value.
* Arbitrary Python values (used in raw configuration mappings and in
  typed-module `params` mappings) are modelled by the inductive `PyVal`.
* `datetime.date` is modelled by `SimDate` (year/month/day) with the
  lexicographic strict order `dateLT`.
-/

/-- Association-list model of a Python `dict[str, float]`. -/
abbrev Dict := List (String × ℚ)

/-- `m[s]` with default `0.0`, i.e. Python `m.get(s, 0.0)`.  Plain `m[s]`
accesses in the source are modelled with this function too; theorems that
depend on such accesses carry the hypothesis that the key is present
(Python would raise `KeyError` otherwise). -/
def dGetD (m : Dict) (s : String) : ℚ :=
  (m.lookup s).getD 0

/-- Python `s in m` for a dict. -/
def dMem (m : Dict) (s : String) : Bool :=
  (m.lookup s).isSome

/-- Python `m[s] = v` on a dict: overwrite in place if the key is present,
otherwise append the new key at the end (Python dicts preserve insertion
order). -/
def dSet (m : Dict) (s : String) (v : ℚ) : Dict :=
  if (m.lookup s).isSome then
    m.map (fun kv => if kv.1 = s then (s, v) else kv)
  else
    m ++ [(s, v)]

/-- The keys of an association list. -/
def dKeys (m : Dict) : List String :=
  m.map Prod.fst

/-! ## Arbitrary Python values (raw configs, `params` mappings) -/

/-- A Python value as it appears in a raw configuration mapping:
a string, a number, a boolean, a list, or a string-keyed dict. -/
inductive PyVal where
  | str : String → PyVal
  | num : ℚ → PyVal
  | boolV : Bool → PyVal
  | list : List PyVal → PyVal
  | dict : List (String × PyVal) → PyVal

/-- Association-list model of a Python `dict[str, Any]`. -/
abbrev PyDict := List (String × PyVal)

/-- Python `m.get(k)` returning `None` as `none`. -/
def pyGet? (m : PyDict) (k : String) : Option PyVal :=
  m.lookup k

/-- Python `m.get(k, default)`. -/
def pyGetD (m : PyDict) (k : String) (default : PyVal) : PyVal :=
  (m.lookup k).getD default

/-- Python `k in m` for a dict. -/
def pyHasKey (m : PyDict) (k : String) : Bool :=
  (m.lookup k).isSome

/-- Python `m[k] = v` on a `dict[str, Any]`. -/
def pySet (m : PyDict) (k : String) (v : PyVal) : PyDict :=
  if (m.lookup k).isSome then
    m.map (fun kv => if kv.1 = k then (k, v) else kv)
  else
    m ++ [(k, v)]

/-! ## Dates and the monthly rebalancer

Source: `src/scientist-workspace/portfolio_engine/rebalancer.py`.
-/

/-- A calendar date (`datetime.date`). -/
structure SimDate where
  year : Nat
  month : Nat
  day : Nat
deriving DecidableEq, Repr

/-- The `(year, month)` pair of a date. -/
def ym (d : SimDate) : Nat × Nat :=
  (d.year, d.month)

/-- Strict lexicographic order on dates (`datetime.date` comparison). -/
def dateLT (a b : SimDate) : Prop :=
  a.year < b.year ∨
    (a.year = b.year ∧ (a.month < b.month ∨ (a.month = b.month ∧ a.day < b.day)))

instance (a b : SimDate) : Decidable (dateLT a b) :=
  inferInstanceAs (Decidable (a.year < b.year ∨
    (a.year = b.year ∧ (a.month < b.month ∨ (a.month = b.month ∧ a.day < b.day)))))

/-- `MonthlyRebalancer.should_rebalance`: due iff never rebalanced or the
`(year, month)` of `as_of_date` differs from that of `last_rebalance_date`. -/
def shouldRebalance (as_of_date : SimDate) (last_rebalance_date : Option SimDate) : Bool :=
  match last_rebalance_date with
  | none => true
  | some l => decide (ym as_of_date ≠ ym l)

/-- Boolean `≤` on strings, used for Python's `sorted`. -/
def strLe (a b : String) : Bool :=
  decide (a ≤ b)

/-- `sorted(set(current_positions) | set(target_positions))`. -/
def sortedSymbolUnion (current_positions target_positions : Dict) : List String :=
  ((dKeys current_positions ++ dKeys target_positions).dedup).mergeSort strLe

/-- `MonthlyRebalancer.generate_trades`: for the union of the two symbol
sets in sorted order, `target_units (default 0) − current_units (default 0)`. -/
def generateTrades (current_positions target_positions : Dict) : Dict :=
  (sortedSymbolUnion current_positions target_positions).map
    (fun symbol => (symbol, dGetD target_positions symbol - dGetD current_positions symbol))

/-! ## Static allocation model

Source: `src/agents/scientist/portfolio_engine/modules/beta_engine_60_40.py`
(`BetaEngine6040.target_weights`).
-/

/-- `sum(self.weights.values())`. -/
def rawTotal (weights : Dict) : ℚ :=
  (weights.map Prod.snd).sum

/-- `BetaEngine6040.target_weights`: raises unless the configured weights
sum to a strictly positive value, otherwise divides each weight by the sum. -/
def targetWeights (weights : Dict) : Except String Dict :=
  let total := rawTotal weights
  if total ≤ 0 then
    .error "Configured weights must sum to a positive value"
  else
    .ok (weights.map (fun sv => (sv.1, sv.2 / total)))

/-! ## Capital allocator

Source: `src/scientist-workspace/portfolio_engine/layers/capital_allocation.py`
(`CapitalAllocator.allocate`).
-/

/-- One per-symbol allocation record `{weight, target_notional, target_units}`. -/
structure Allocation where
  weight : ℚ
  target_notional : ℚ
  target_units : ℚ
deriving DecidableEq, Repr

/-- The exceptions `CapitalAllocator.allocate` can raise. -/
inductive AllocError where
  | negativePortfolioValue
  | missingPrice (symbol : String)
  | invalidPrice (symbol : String)
deriving DecidableEq, Repr

/-- The per-symbol loop of `CapitalAllocator.allocate`, in dict iteration
order; stops at the first offending symbol exactly as the Python loop does. -/
def allocateSymbols (portfolio_value : ℚ) (prices : Dict) :
    List (String × ℚ) → Except AllocError (List (String × Allocation))
  | [] => .ok []
  | (symbol, weight) :: rest =>
    match prices.lookup symbol with
    | none => .error (.missingPrice symbol)
    | some px =>
      if px ≤ 0 then .error (.invalidPrice symbol)
      else do
        let tail ← allocateSymbols portfolio_value prices rest
        .ok ((symbol,
          { weight := weight
            target_notional := portfolio_value * weight
            target_units := portfolio_value * weight / px }) :: tail)

/-- `CapitalAllocator.allocate`. -/
def allocate (weights : Dict) (portfolio_value : ℚ) (prices : Dict) :
    Except AllocError (List (String × Allocation)) :=
  if portfolio_value < 0 then .error .negativePortfolioValue
  else allocateSymbols portfolio_value prices weights

/-! ## Equal-weight grouping functions

Source: `src/agents/scientist/portfolio_engine/strategies/beta/weighting_logic.py`
(and the behaviourally identical copy in
`src/agents/scientist/beta_engine/weighting_logic.py`).
-/

/-- `_equal_weights`: `{}` for an empty key list, else `1/len(keys)` each. -/
def equalWeights (keys : List String) : List (String × ℚ) :=
  match keys with
  | [] => []
  | _ =>
    let w : ℚ := 1 / keys.length
    keys.map (fun k => (k, w))

/-- `weight_within_group` on a dict argument (`isinstance(group, dict)`). -/
def weightWithinGroupDict {α : Type} (group : List (String × α)) : List (String × ℚ) :=
  equalWeights (group.map Prod.fst)

/-- `weight_within_group` on a list argument (keys `str(i)` for
`i in range(len(group))`). -/
def weightWithinGroupList {α : Type} (group : List α) : List (String × ℚ) :=
  equalWeights ((List.range group.length).map (fun i => toString i))

/-- `weight_level_one`. -/
def weightLevelOne {α : Type} (hierarchy : List (String × α)) : List (String × ℚ) :=
  equalWeights (hierarchy.map Prod.fst)

/-! ## Hierarchical equal-weight descent

The 4-level hierarchy shape produced by
`src/agents/scientist/beta_engine/hierarchy_loader.py`: level1 → level2 →
level3 → level4 → list of instrument leaves (each leaf an
`{"instrument_type": ...}` record, modelled by its string value).
-/

/-- Level-4 subtree: instrument-group label → leaf instruments. -/
abbrev HLevel4 := List (String × List String)

/-- Level-3 subtree. -/
abbrev HLevel3 := List (String × HLevel4)

/-- Level-2 subtree. -/
abbrev HLevel2 := List (String × HLevel3)

/-- A full 4-level hierarchy keyed by level-1 asset class. -/
abbrev Hierarchy := List (String × HLevel2)

/-- Modelled from the spec: the equal-weight descent of §4.6 ("weight =
product of equal weights at each level from root to leaf"); the driver
that composes the levels is not under `src/`, so it is reconstructed here
by composing the source's `weight_within_group` at each level, keying each
leaf by its path. -/
def descendWeights (hierarchy : Hierarchy) : List (String × ℚ) :=
  (weightWithinGroupDict hierarchy).flatMap (fun kw1 =>
    match hierarchy.lookup kw1.1 with
    | none => []
    | some lvl2 =>
      (weightWithinGroupDict lvl2).flatMap (fun kw2 =>
        match lvl2.lookup kw2.1 with
        | none => []
        | some lvl3 =>
          (weightWithinGroupDict lvl3).flatMap (fun kw3 =>
            match lvl3.lookup kw3.1 with
            | none => []
            | some lvl4 =>
              (weightWithinGroupDict lvl4).flatMap (fun kw4 =>
                match lvl4.lookup kw4.1 with
                | none => []
                | some leaves =>
                  (weightWithinGroupList leaves).map (fun kwLeaf =>
                    (kw1.1 ++ "/" ++ kw2.1 ++ "/" ++ kw3.1 ++ "/" ++ kw4.1 ++ "/" ++ kwLeaf.1,
                     kw1.2 * kw2.2 * kw3.2 * kw4.2 * kwLeaf.2))))))

/-! ## Static portfolio definition weights

Source: `src/agents/scientist/beta_engine/allocator.py`
(`_derive_node_weights`; identical to `derive_node_weights` in
`src/agents/scientist/portfolio_engine/strategies/beta/portfolio_models.py`).
-/

/-- One row of a portfolio definition restricted to the columns
`_derive_node_weights` reads.  `weight = none` models a weight cell that
`pd.to_numeric(..., errors="coerce")` turns into NaN (a non-numeric cell). -/
structure DefRow where
  node_id : String
  weight : Option ℚ
  weight_type : String
deriving DecidableEq, Repr

/-- The 1e-9 tolerance on static weight sums, as an exact rational. -/
def weightTol : ℚ := 1 / 1000000000

/-- `_derive_node_weights`: one `weight_type` per portfolio; `static`
weights must all be numeric and sum to 1.0 within 1e-9; `rule_based` falls
back to equal weights across the selected node_ids. -/
def deriveNodeWeights (portfolio_df : List DefRow) :
    Except String (List (String × ℚ) × String) :=
  match (portfolio_df.map (·.weight_type)).dedup with
  | [weight_type] =>
    if weight_type = "static" then
      if portfolio_df.any (fun r => r.weight.isNone) then
        .error "Static portfolio requires numeric weight for every row"
      else
        let total := (portfolio_df.map (fun r => r.weight.getD 0)).sum
        if |total - 1| > weightTol then
          .error "Static portfolio weights must sum to 1.0"
        else
          .ok (portfolio_df.map (fun r => (r.node_id, r.weight.getD 0)), "static")
    else
      let node_ids := portfolio_df.map (·.node_id)
      let w := weightWithinGroupList node_ids
      .ok (node_ids.enum.map (fun iv => (iv.2, dGetD w (toString iv.1))), "rule_based_stub")
  | _ => .error "Portfolio contains mixed weight_type values; expected one mode per portfolio"

/-! ## Config normalizer

Source: `src/agents/scientist/portfolio_engine/compat.py`
(`normalize_legacy_config`).  `deepcopy` of a value is the identity on the
immutable `PyVal` model.
-/

/-- Python attribute access `.get` on a value that must be a dict; a
non-dict raises `AttributeError`. -/
def asPyDict : PyVal → Except String PyDict
  | .dict d => .ok d
  | _ => .error "AttributeError: object has no attribute get"

/-- `normalize_legacy_config`: pass through when `allocation_model` is
already present, otherwise synthesize the canonical shape from the legacy
`strategy` / `overlays` / `rebalancer` / `constraints` keys. -/
def normalizeLegacyConfig (raw : PyDict) : Except String PyDict :=
  if pyHasKey raw "allocation_model" then .ok raw
  else do
    let strategy ← asPyDict (pyGetD raw "strategy" (.dict []))
    let overlays ← asPyDict (pyGetD raw "overlays" (.dict []))
    let rebalancer ← asPyDict (pyGetD raw "rebalancer" (.dict []))
    .ok [
      ("engine", pyGetD raw "engine"
        (.dict [("name", .str "portfolio_engine"), ("version", .str "0.1")])),
      ("allocation_model", .dict [
        ("type", pyGetD strategy "name" (.str "beta_engine_60_40")),
        ("params", .dict [("weights", pyGetD strategy "weights" (.dict []))])]),
      ("overlays", .list [
        .dict [("type", pyGetD overlays "risk" (.str "risk_overlay_none")),
               ("params", .dict [])],
        .dict [("type", pyGetD overlays "regime" (.str "regime_overlay_none")),
               ("params", .dict [])]]),
      ("rebalancer", .dict [
        ("type", pyGetD rebalancer "type" (.str "monthly")),
        ("params", .dict [])]),
      ("allocator", .dict [
        ("type", .str "capital_allocator"),
        ("params", .dict [])]),
      ("constraints", pyGetD raw "constraints" (.dict [("leverage", .boolV false)]))]

/-! ## Engine config model and parser

Source: `src/agents/scientist/portfolio_engine/config_schema.py`
(identical copy used by `src/scientist-workspace/portfolio_engine`).
-/

/-- `TypedModuleConfig`: a module type name plus its params mapping. -/
structure TypedModuleConfig where
  type : String
  params : PyDict

/-- `EngineMetaConfig`. -/
structure EngineMetaConfig where
  name : String
  version : String
deriving DecidableEq, Repr

/-- `ConstraintConfig`. -/
structure ConstraintConfig where
  leverage : Bool
deriving DecidableEq, Repr

/-- `EngineConfig`. -/
structure EngineConfig where
  engine : EngineMetaConfig
  allocation_model : TypedModuleConfig
  overlays : List TypedModuleConfig
  rebalancer : TypedModuleConfig
  allocator : TypedModuleConfig
  constraints : ConstraintConfig

/-- `_require_dict`. -/
def requireDict (value : Option PyVal) (field_name : String) : Except String PyDict :=
  match value with
  | some (.dict d) => .ok d
  | _ => .error (field_name ++ " must be a mapping")

/-- `_parse_typed_module`. -/
def parseTypedModule (value : Option PyVal) (field_name : String) :
    Except String TypedModuleConfig := do
  let raw ← requireDict value field_name
  let module_type ←
    match raw.lookup "type" with
    | some (.str s) =>
      if s = "" then Except.error (field_name ++ ".type must be a non-empty string")
      else Except.ok s
    | _ => Except.error (field_name ++ ".type must be a non-empty string")
  let params ←
    match raw.lookup "params" with
    | none => Except.ok ([] : PyDict)
    | some (.dict d) => Except.ok d
    | some _ => Except.error (field_name ++ ".params must be a mapping")
  .ok { type := module_type, params := params }

/-- `str(version)` for a numeric version field; the exact rendering of the
number is irrelevant to every claim, only that it is a non-empty string. -/
def numToString (q : ℚ) : String :=
  toString q

/-- `parse_engine_config`. -/
def parseEngineConfig (config : PyDict) : Except String EngineConfig := do
  let root := config
  let engine_raw ← requireDict (pyGet? root "engine") "engine"
  let name ←
    match engine_raw.lookup "name" with
    | some (.str s) =>
      if s = "" then Except.error "engine.name must be a non-empty string"
      else Except.ok s
    | _ => Except.error "engine.name must be a non-empty string"
  let version ←
    match engine_raw.lookup "version" with
    | some (.num q) => Except.ok (numToString q)
    | some (.boolV b) => Except.ok (if b then "True" else "False")
    | some (.str s) =>
      if s = "" then Except.error "engine.version must be a non-empty string"
      else Except.ok s
    | _ => Except.error "engine.version must be a non-empty string"
  let allocation_model ← parseTypedModule (pyGet? root "allocation_model") "allocation_model"
  let overlays_raw ←
    match pyGet? root "overlays" with
    | none => Except.ok ([] : List PyVal)
    | some (.list xs) => Except.ok xs
    | some _ => Except.error "overlays must be a list"
  let overlays ← overlays_raw.mapM (fun item => parseTypedModule (some item) "overlays[i]")
  let rebalancer ← parseTypedModule (pyGet? root "rebalancer") "rebalancer"
  let allocator ← parseTypedModule (pyGet? root "allocator") "allocator"
  let constraints_raw ← requireDict (some (pyGetD root "constraints" (.dict []))) "constraints"
  let leverage ←
    match constraints_raw.lookup "leverage" with
    | none => Except.ok false
    | some (.boolV b) => Except.ok b
    | some _ => Except.error "constraints.leverage must be a boolean"
  .ok { engine := { name := name, version := version }
        allocation_model := allocation_model
        overlays := overlays
        rebalancer := rebalancer
        allocator := allocator
        constraints := { leverage := leverage } }

/-! ## Pipeline factory and registry

Sources: `src/scientist-workspace/portfolio_engine/factory.py` and
`registry.py`.  The registry is the closed set
`{beta_engine_60_40} × {risk_overlay_none, regime_overlay_none} ×
{monthly} × {capital_allocator}`; a constructor invoked as
`registry[module_type](**params)` raises `TypeError` unless `params`
matches the constructor's keyword parameters (only `BetaEngine6040` takes
one, `weights`).
-/

/-- Errors raised while building or running a pipeline. -/
inductive EngineError where
  | unknownModuleType (module_type : String)
  | badModuleParams (module_type : String)
  | weightsNotPositive
  | allocation (e : AllocError)
deriving DecidableEq, Repr

/-- Reads a `params["weights"]` value as a `dict[str, float]`. -/
def pyWeightsDict : PyVal → Option Dict
  | .dict entries =>
    entries.mapM (fun kv =>
      match kv.2 with
      | .num q => some (kv.1, q)
      | _ => none)
  | _ => none

/-- The constructed pipeline: the only registered allocation model is
`BetaEngine6040` (carrying its configured weights); the registered
overlays, rebalancer and allocator are all parameterless, so the number of
overlays is the only other run-relevant datum. -/
structure Pipeline where
  allocation_weights : Dict
  overlay_count : Nat
deriving DecidableEq, Repr

/-- `_build_typed` for the `ALLOCATION_MODELS` registry:
`BetaEngine6040(**params)` requires exactly the keyword `weights`. -/
def buildAllocationModel (cfg : TypedModuleConfig) : Except EngineError Dict :=
  if cfg.type = "beta_engine_60_40" then
    match cfg.params with
    | [("weights", v)] =>
      match pyWeightsDict v with
      | some w => .ok w
      | none => .error (.badModuleParams cfg.type)
    | _ => .error (.badModuleParams cfg.type)
  else .error (.unknownModuleType cfg.type)

/-- `_build_typed` for a parameterless registry entry (`RiskOverlayNone`,
`RegimeOverlayNone`, `MonthlyRebalancer`, `CapitalAllocator` all take no
constructor arguments). -/
def buildParamless (known : List String) (cfg : TypedModuleConfig) :
    Except EngineError Unit :=
  if cfg.type ∈ known then
    if cfg.params.isEmpty then .ok () else .error (.badModuleParams cfg.type)
  else .error (.unknownModuleType cfg.type)

/-- `build_pipeline`. -/
def buildPipeline (cfg : EngineConfig) : Except EngineError Pipeline := do
  let weights ← buildAllocationModel cfg.allocation_model
  let _ ← cfg.overlays.mapM
    (buildParamless ["risk_overlay_none", "regime_overlay_none"])
  let _ ← buildParamless ["monthly"] cfg.rebalancer
  let _ ← buildParamless ["capital_allocator"] cfg.allocator
  .ok { allocation_weights := weights, overlay_count := cfg.overlays.length }

/-! ## Portfolio engine `run()`

Source: `src/scientist-workspace/portfolio_engine/engine.py`
(`PortfolioEngine.run`; identical copy in
`src/agents/scientist/portfolio_engine/engine.py`).
-/

/-- The result record of one `run()` call. -/
structure RunOutput where
  as_of_date : SimDate
  weights : Dict
  allocations : List (String × Allocation)
  should_rebalance : Bool
  trades : Dict
deriving DecidableEq, Repr

/-- The registered overlays are all no-ops: `apply` returns
`dict(weights)`, a fresh copy with identical contents. -/
def applyOverlays (overlay_count : Nat) (weights : Dict) : Dict :=
  match overlay_count with
  | 0 => weights
  | n + 1 => applyOverlays n weights

/-- `PortfolioEngine.run`. -/
def engineRun (cfg : EngineConfig) (as_of_date : SimDate) (prices : Dict)
    (portfolio_value : ℚ) (current_positions : Dict)
    (last_rebalance_date : Option SimDate) : Except EngineError RunOutput := do
  let pipeline ← buildPipeline cfg
  let weights ←
    match targetWeights pipeline.allocation_weights with
    | .ok w => Except.ok w
    | .error _ => Except.error EngineError.weightsNotPositive
  let weights := applyOverlays pipeline.overlay_count weights
  let fired := shouldRebalance as_of_date last_rebalance_date
  let allocations ←
    match allocate weights portfolio_value prices with
    | .ok a => Except.ok a
    | .error e => Except.error (EngineError.allocation e)
  let target_positions := allocations.map (fun sa => (sa.1, sa.2.target_units))
  let trades := if fired then generateTrades current_positions target_positions else []
  .ok { as_of_date := as_of_date
        weights := weights
        allocations := allocations
        should_rebalance := fired
        trades := trades }

/-! ## Backtest simulation loop

Source: `src/scientist-workspace/backtest.py` (`_simulate_strategy`; the
copy in `src/agents/scientist/engine/backtest.py` is identical in every
modelled line).  The `SYMBOL_MAP` ticker renaming is a bijective relabel
(`AGG ↦ TLT`) and is taken as the identity here: the claims are invariant
under renaming of symbols.
-/

/-- Mutable simulation state plus the per-period output lists. -/
structure SimState where
  cash : ℚ
  positions : Dict
  last_reb : Option SimDate
  equity : List ℚ
  weight_rows : List (SimDate × Dict)
  turnover_rows : List ℚ
deriving DecidableEq, Repr

/-- `engine.config.allocation_model.params["weights"] = engine_weights`:
the in-place mutation `_simulate_strategy` performs on the parsed config
before iterating, made explicit as a function from the old config to the
new one. -/
def setAllocationWeights (cfg : EngineConfig) (engine_weights : Dict) : EngineConfig :=
  { cfg with
    allocation_model :=
      { cfg.allocation_model with
        params := pySet cfg.allocation_model.params "weights"
          (.dict (engine_weights.map (fun sv => (sv.1, .num sv.2)))) } }

/-- `cash + sum(positions[s] * px[s] for s in positions)` — the
mark-to-market value at this period's prices. -/
def markValue (cash : ℚ) (positions : Dict) (px : Dict) : ℚ :=
  cash + (positions.map (fun sv => sv.2 * dGetD px sv.1)).sum

/-- `sum(abs(du) * px[s] for s, du in trades.items())`. -/
def turnoverNotional (trades : Dict) (px : Dict) : ℚ :=
  (trades.map (fun sd => |sd.2| * dGetD px sd.1)).sum

/-- The trade-application loop
`for s, du in trades.items(): cash -= du * px[s]; positions[s] += du`. -/
def applyTrades (cash : ℚ) (positions : Dict) (trades : Dict) (px : Dict) : ℚ × Dict :=
  trades.foldl
    (fun cp sd => (cp.1 - sd.2 * dGetD px sd.1, dSet cp.2 sd.1 (dGetD cp.2 sd.1 + sd.2)))
    (cash, positions)

/-- One iteration of the `for dt, row in prices.iterrows()` loop of
`_simulate_strategy`. -/
def simStep (cfg : EngineConfig) (st : SimState) (row : SimDate × Dict) :
    Except EngineError SimState := do
  let as_of := row.1
  let px := row.2
  let pv := markValue st.cash st.positions px
  let out ← engineRun cfg as_of px pv st.positions st.last_reb
  let st := { st with weight_rows := st.weight_rows ++ [(as_of, out.weights)] }
  let st :=
    if out.should_rebalance then
      let turn := if 0 < pv then turnoverNotional out.trades px / pv else 0
      let cp := applyTrades st.cash st.positions out.trades px
      { st with
        cash := cp.1
        positions := cp.2
        last_reb := some as_of
        turnover_rows := st.turnover_rows ++ [turn] }
    else st
  .ok { st with equity := st.equity ++ [markValue st.cash st.positions px] }

/-- The whole dated loop; a raised exception aborts the backtest. -/
def simulateLoop (cfg : EngineConfig) (st : SimState) :
    List (SimDate × Dict) → Except EngineError SimState
  | [] => .ok st
  | row :: rows => do
    let st' ← simStep cfg st row
    simulateLoop cfg st' rows

/-- The initial simulation state:
`cash, positions, last_reb = 10000.0, {s: 0.0 for s in engine_symbols}, None`. -/
def initState (engine_symbols : List String) : SimState :=
  { cash := 10000
    positions := engine_symbols.foldl (fun acc s => dSet acc s 0) []
    last_reb := none
    equity := []
    weight_rows := []
    turnover_rows := [] }

/-- The value of `engine.config` after `_simulate_strategy` has run for a
portfolio with the given ticker weights (the config is mutated once before
the loop and never afterwards). -/
def simulateStrategyConfig (cfg : EngineConfig) (tickers : Dict) : EngineConfig :=
  setAllocationWeights cfg tickers

/-- `_simulate_strategy`: mutate the config's allocation-model weights,
run the loop, and return the equity series, the weights history and the
total turnover `float(sum(turnover_rows))`. -/
def simulateStrategy (cfg : EngineConfig) (tickers : Dict)
    (rows : List (SimDate × Dict)) :
    Except EngineError (List ℚ × List (SimDate × Dict) × ℚ) := do
  let cfg := simulateStrategyConfig cfg tickers
  let fin ← simulateLoop cfg (initState (dKeys tickers)) rows
  .ok (fin.equity, fin.weight_rows, fin.turnover_rows.sum)

/-! ## Rebalance-decision trace of the backtest loop

The backtest loop (`_simulate_strategy`) advances `last_rebalance_date`
to the current date exactly when a rebalance occurs; `rebalanceFlags`
records the sequence of `should_rebalance` decisions this produces over a
date sequence.
-/

/-- The sequence of `should_rebalance` values over a date sequence, with
`last_rebalance_date` advanced to the current date exactly when a
rebalance occurs (the update discipline of `_simulate_strategy`). -/
def rebalanceFlags : Option SimDate → List SimDate → List Bool
  | _, [] => []
  | last, d :: ds =>
    let f := shouldRebalance d last
    f :: rebalanceFlags (if f then some d else last) ds

/-- Adjacent-difference flags: flag a date iff its `(year, month)` differs
from the previous date's. -/
def adjFlags : SimDate → List SimDate → List Bool
  | _, [] => []
  | prev, d :: ds => decide (ym d ≠ ym prev) :: adjFlags d ds

/-- How many dates with `(year, month) = p` carry a `true` rebalance flag. -/
def firedCount (p : Nat × Nat) (flags : List Bool) (dates : List SimDate) : Nat :=
  (flags.zip dates).countP (fun x => x.1 && decide (ym x.2 = p))

/-- Weak lexicographic order on `(year, month)` pairs. -/
def ymLE (p q : Nat × Nat) : Prop :=
  p.1 < q.1 ∨ (p.1 = q.1 ∧ p.2 ≤ q.2)

/-- The allocation record `allocate` produces for a weighted symbol. -/
def expectedAllocation (portfolio_value : ℚ) (prices : Dict) (sw : String × ℚ) :
    String × Allocation :=
  (sw.1,
    { weight := sw.2
      target_notional := portfolio_value * sw.2
      target_units := portfolio_value * sw.2 / (prices.lookup sw.1).getD 0 })

/-- The claim's example tree: 2 level-1 classes, each with exactly one
child at every subsequent level, down to a single leaf instrument. -/
def twoBranchChainTree : Hierarchy :=
  [("equities", [("all", [("core", [("group", ["ETF"])])])]),
   ("bonds", [("all", [("core", [("group", ["ETF"])])])])]

/-- Projects a numeric `PyVal`. -/
def pyNum? : PyVal → Option ℚ
  | .num q => some q
  | _ => none

/-- The configured weight of one symbol inside a config's
`allocation_model.params["weights"]` mapping. -/
def weightsParamOf (cfg : EngineConfig) (symbol : String) : Option ℚ :=
  match cfg.allocation_model.params.lookup "weights" with
  | some (.dict w) => (w.lookup symbol).bind pyNum?
  | _ => none

/-- A concrete canonical raw configuration with 50/50 configured weights. -/
def rawCanonicalConfig : PyDict :=
  [("engine", .dict [("name", .str "portfolio_engine"), ("version", .str "0.1")]),
   ("allocation_model", .dict [
      ("type", .str "beta_engine_60_40"),
      ("params", .dict [("weights",
        .dict [("SPY", .num (1/2)), ("TLT", .num (1/2))])])]),
   ("overlays", .list [
      .dict [("type", .str "risk_overlay_none"), ("params", .dict [])],
      .dict [("type", .str "regime_overlay_none"), ("params", .dict [])]]),
   ("rebalancer", .dict [("type", .str "monthly"), ("params", .dict [])]),
   ("allocator", .dict [("type", .str "capital_allocator"), ("params", .dict [])]),
   ("constraints", .dict [("leverage", .boolV false)])]

/-- The `EngineConfig` that `parse_engine_config` produces from
`rawCanonicalConfig`. -/
def parsedConfigX : EngineConfig :=
  { engine := { name := "portfolio_engine", version := "0.1" }
    allocation_model :=
      { type := "beta_engine_60_40"
        params := [("weights",
          .dict [("SPY", .num (1/2)), ("TLT", .num (1/2))])] }
    overlays :=
      [{ type := "risk_overlay_none", params := [] },
       { type := "regime_overlay_none", params := [] }]
    rebalancer := { type := "monthly", params := [] }
    allocator := { type := "capital_allocator", params := [] }
    constraints := { leverage := false } }

/-- A minimal one-symbol parsed config used to exercise the simulation
step on concrete inputs. -/
def cfgUnit : EngineConfig :=
  { engine := { name := "portfolio_engine", version := "0.1" }
    allocation_model :=
      { type := "beta_engine_60_40"
        params := [("weights", .dict [("SPY", .num 1)])] }
    overlays := []
    rebalancer := { type := "monthly", params := [] }
    allocator := { type := "capital_allocator", params := [] }
    constraints := { leverage := false } }

/-! # Theorems -/

/-! ## General list lemmas -/

theorem sum_map_div (l : List ℚ) (c : ℚ) :
    (l.map (fun x => x / c)).sum = l.sum / c := by
  induction l with
  | nil => simp
  | cons x xs ih => simp [ih, add_div]

/-! ## C1: static allocation model normalization -/

/-- C1: for every configured weights mapping whose raw values sum to a
strictly positive total, `target_weights()` returns each symbol mapped to
its raw weight divided by the total, and the returned weights sum to
exactly 1 (hence to 1.0 within 1e-9); if the raw sum is ≤ 0 it raises
instead of returning. -/
theorem c1_target_weights_normalization (weights : Dict) :
    (0 < rawTotal weights →
      targetWeights weights =
        .ok (weights.map (fun sv => (sv.1, sv.2 / rawTotal weights))) ∧
      ((weights.map (fun sv => (sv.1, sv.2 / rawTotal weights))).map Prod.snd).sum = 1 ∧
      |((weights.map (fun sv => (sv.1, sv.2 / rawTotal weights))).map Prod.snd).sum - 1|
        ≤ weightTol) ∧
    (rawTotal weights ≤ 0 →
      targetWeights weights = .error "Configured weights must sum to a positive value") := by
  constructor
  · intro h
    have hne : rawTotal weights ≠ 0 := ne_of_gt h
    have hnot : ¬ rawTotal weights ≤ 0 := not_le.mpr h
    have hsum : ((weights.map (fun sv => (sv.1, sv.2 / rawTotal weights))).map Prod.snd).sum
        = 1 := by
      have h1 : (weights.map (fun sv => (sv.1, sv.2 / rawTotal weights))).map Prod.snd
          = (weights.map Prod.snd).map (fun x => x / rawTotal weights) := by
        simp [List.map_map]
      rw [h1, sum_map_div]
      exact div_self hne
    refine ⟨?_, hsum, ?_⟩
    · unfold targetWeights
      simp [hnot]
    · rw [hsum]
      simp [weightTol]
  · intro h
    unfold targetWeights
    simp [h]

/-- Witness for C1 at the spec's own example `{SPY: 60, TLT: 40}`. -/
theorem c1_target_weights_normalization_witness :
    targetWeights [("SPY", (60 : ℚ)), ("TLT", 40)] =
      .ok [("SPY", (3 : ℚ)/5), ("TLT", (2 : ℚ)/5)] := by
  have h := (c1_target_weights_normalization [("SPY", (60 : ℚ)), ("TLT", 40)]).1
    (by norm_num [rawTotal])
  rw [h.1]
  norm_num [rawTotal]

/-! ## C2: monthly rebalance, once per calendar month -/

theorem dateLT_trans : Transitive dateLT := by
  intro a b c hab hbc
  unfold dateLT at *
  omega

instance : IsTrans SimDate dateLT := ⟨fun _ _ _ hab hbc => dateLT_trans hab hbc⟩

theorem ymLE_of_dateLT {a b : SimDate} (h : dateLT a b) : ymLE (ym a) (ym b) := by
  unfold dateLT at h
  unfold ymLE ym
  omega

theorem ymLE_antisymm {p q : Nat × Nat} (h1 : ymLE p q) (h2 : ymLE q p) : p = q := by
  unfold ymLE at *
  have : p.1 = q.1 ∧ p.2 = q.2 := by omega
  exact Prod.ext this.1 this.2

theorem chain_ym_mono {d : SimDate} {ds : List SimDate}
    (h : List.Chain dateLT d ds) : ∀ e ∈ ds, ymLE (ym d) (ym e) := by
  intro e he
  have hp := List.chain_iff_pairwise.mp h
  exact ymLE_of_dateLT ((List.pairwise_cons.mp hp).1 e he)

theorem adjFlags_congr {l l' : SimDate} (h : ym l = ym l') (ds : List SimDate) :
    adjFlags l ds = adjFlags l' ds := by
  cases ds with
  | nil => rfl
  | cons d ds => simp [adjFlags, h]

theorem rebalanceFlags_eq_adjFlags :
    ∀ (ds : List SimDate) (l : SimDate), rebalanceFlags (some l) ds = adjFlags l ds := by
  intro ds
  induction ds with
  | nil => intro l; rfl
  | cons d ds ih =>
    intro l
    by_cases hym : ym d = ym l
    · have hf : shouldRebalance d (some l) = false := by
        simp [shouldRebalance, hym]
      simp only [rebalanceFlags, hf, adjFlags]
      rw [if_neg (by simp), ih l, adjFlags_congr hym.symm ds]
      simp [hym]
    · have hf : shouldRebalance d (some l) = true := by
        simp [shouldRebalance, hym]
      simp only [rebalanceFlags, hf, adjFlags]
      rw [if_pos trivial, ih d]
      simp [hym]

theorem adj_firedCount (p : Nat × Nat) :
    ∀ (ds : List SimDate) (l : SimDate), List.Chain dateLT l ds →
      firedCount p (adjFlags l ds) ds =
        if p ∈ ds.map ym ∧ p ≠ ym l then 1 else 0 := by
  intro ds
  induction ds with
  | nil =>
    intro l _
    simp [firedCount, adjFlags]
  | cons d ds ih =>
    intro l h
    obtain ⟨hld, hchain⟩ := List.chain_cons.mp h
    have hmono := chain_ym_mono hchain
    have hld' : ymLE (ym l) (ym d) := ymLE_of_dateLT hld
    have hstep : firedCount p (adjFlags l (d :: ds)) (d :: ds)
        = firedCount p (adjFlags d ds) ds
          + if (decide (ym d ≠ ym l) && decide (ym d = p)) then 1 else 0 := by
      simp [firedCount, adjFlags, List.countP_cons]
    rw [hstep, ih d hchain]
    by_cases hdp : ym d = p
    · subst hdp
      by_cases hdl : ym d = ym l
      · simp [hdl]
      · simp [hdl]
    · have h2 : ¬ (decide (ym d ≠ ym l) && decide (ym d = p)) = true := by
        simp [hdp]
      rw [if_neg h2, Nat.add_zero]
      by_cases hmem : p ∈ ds.map ym
      · have hpl : p ≠ ym l := by
          intro hpl
          obtain ⟨e, he, hye⟩ := List.mem_map.mp hmem
          have h3 : ymLE (ym d) p := hye ▸ hmono e he
          have h4 : ymLE p (ym d) := hpl ▸ hld'
          exact hdp (ymLE_antisymm h3 h4)
        have hmem' : p ∈ (d :: ds).map ym := by
          simp [List.mem_map] at hmem ⊢
          right
          simpa [List.mem_map] using hmem
        simp [hmem, hmem', hpl, Ne.symm hdp]
      · have hne : ¬ p = ym d := fun h' => hdp h'.symm
        simp [hmem, hne]

/-- C2: over a strictly increasing date sequence driven by the backtest
loop's `last_rebalance_date` update discipline, `should_rebalance` is true
on the very first call (`last_rebalance_date = None`), is true iff the
`(year, month)` of `as_of_date` differs from that of
`last_rebalance_date`, and fires exactly once per distinct `(year, month)`
pair appearing in the sequence (in particular it never re-triggers within
the same calendar month). -/
theorem c2_monthly_rebalance_once_per_month (d0 : SimDate) (ds : List SimDate)
    (hchain : List.Chain dateLT d0 ds) :
    (∀ d, shouldRebalance d none = true) ∧
    (∀ d l, shouldRebalance d (some l) = true ↔ ym d ≠ ym l) ∧
    (rebalanceFlags none (d0 :: ds)).head? = some true ∧
    (∀ p : Nat × Nat,
      firedCount p (rebalanceFlags none (d0 :: ds)) (d0 :: ds) =
        if p ∈ (d0 :: ds).map ym then 1 else 0) := by
  have hflags : rebalanceFlags none (d0 :: ds) = true :: adjFlags d0 ds := by
    simp only [rebalanceFlags, shouldRebalance]
    rw [if_pos trivial, rebalanceFlags_eq_adjFlags]
  refine ⟨fun d => rfl, fun d l => by simp [shouldRebalance], ?_, ?_⟩
  · rw [hflags]; rfl
  · intro p
    rw [hflags]
    have hstep : firedCount p (true :: adjFlags d0 ds) (d0 :: ds)
        = firedCount p (adjFlags d0 ds) ds
          + if (true && decide (ym d0 = p)) then 1 else 0 := by
      simp [firedCount, List.countP_cons]
    rw [hstep, adj_firedCount p ds d0 hchain]
    by_cases hdp : ym d0 = p
    · subst hdp
      simp
    · by_cases hmem : p ∈ ds.map ym
      · have hmem' : p ∈ (d0 :: ds).map ym := by
          simp only [List.map_cons, List.mem_cons]
          right; exact hmem
        simp [hmem, hmem', hdp, Ne.symm hdp]
      · have hne : ¬ p = ym d0 := fun h' => hdp h'.symm
        simp [hmem, hne, hdp]

/-- Witness for C2 on the spec's example dates: February 2026 triggers a
rebalance exactly once over
`[2026-01-02, 2026-02-02, 2026-02-15, 2026-03-02]`. -/
theorem c2_monthly_rebalance_witness :
    firedCount (2026, 2)
      (rebalanceFlags none [⟨2026,1,2⟩, ⟨2026,2,2⟩, ⟨2026,2,15⟩, ⟨2026,3,2⟩])
      [⟨2026,1,2⟩, ⟨2026,2,2⟩, ⟨2026,2,15⟩, ⟨2026,3,2⟩] = 1 := by
  have h := (c2_monthly_rebalance_once_per_month ⟨2026,1,2⟩
    [⟨2026,2,2⟩, ⟨2026,2,15⟩, ⟨2026,3,2⟩]
    (List.Chain.cons (by decide) (List.Chain.cons (by decide)
      (List.Chain.cons (by decide) List.Chain.nil)))).2.2.2 (2026, 2)
  rw [h]
  decide

/-! ## C3: capital allocator error conditions and outputs -/

theorem allocateSymbols_spec (portfolio_value : ℚ) (prices : Dict)
    (ws : List (String × ℚ)) :
    ((∃ e, allocateSymbols portfolio_value prices ws = .error e) ↔
      ∃ sw ∈ ws, prices.lookup sw.1 = none ∨
        ∃ px, prices.lookup sw.1 = some px ∧ px ≤ 0) ∧
    (∀ out, allocateSymbols portfolio_value prices ws = .ok out →
      out = ws.map (expectedAllocation portfolio_value prices)) := by
  induction ws with
  | nil =>
    constructor
    · simp [allocateSymbols]
    · intro out hout
      simp [allocateSymbols] at hout
      simp [hout.symm]
  | cons sw rest ih =>
    obtain ⟨s, w⟩ := sw
    match hs : prices.lookup s with
    | none =>
      constructor
      · constructor
        · intro _
          exact ⟨(s, w), List.mem_cons_self _ _, Or.inl hs⟩
        · intro _
          exact ⟨.missingPrice s, by simp [allocateSymbols, hs]⟩
      · intro out hout
        simp [allocateSymbols, hs] at hout
    | some px =>
      by_cases hpx : px ≤ 0
      · constructor
        · constructor
          · intro _
            exact ⟨(s, w), List.mem_cons_self _ _, Or.inr ⟨px, hs, hpx⟩⟩
          · intro _
            exact ⟨.invalidPrice s, by simp [allocateSymbols, hs, hpx]⟩
        · intro out hout
          simp [allocateSymbols, hs, hpx] at hout
      · have hhead : ¬ (prices.lookup (s, w).1 = none ∨
            ∃ px', prices.lookup (s, w).1 = some px' ∧ px' ≤ 0) := by
          simp only [hs]
          rintro (h' | ⟨px', hpx', hle⟩)
          · exact Option.noConfusion h'
          · exact hpx (Option.some.inj hpx' ▸ hle)
        constructor
        · constructor
          · intro ⟨e, he⟩
            match hre : allocateSymbols portfolio_value prices rest with
            | .ok tail =>
              simp [allocateSymbols, hs, hpx, hre, Bind.bind, Except.bind] at he
            | .error e' =>
              obtain ⟨sw', hmem, hbad⟩ := ih.1.mp ⟨e', hre⟩
              exact ⟨sw', List.mem_cons_of_mem _ hmem, hbad⟩
          · rintro ⟨sw', hmem, hbad⟩
            rcases List.mem_cons.mp hmem with heq | hmem'
            · exact absurd (heq ▸ hbad) hhead
            · obtain ⟨e, he⟩ := ih.1.mpr ⟨sw', hmem', hbad⟩
              exact ⟨e, by simp [allocateSymbols, hs, hpx, he, Bind.bind, Except.bind]⟩
        · intro out hout
          match hre : allocateSymbols portfolio_value prices rest with
          | .error e' =>
            simp [allocateSymbols, hs, hpx, hre, Bind.bind, Except.bind] at hout
          | .ok tail =>
            simp [allocateSymbols, hs, hpx, hre, Bind.bind, Except.bind] at hout
            rw [← hout, ih.2 tail hre]
            simp [expectedAllocation, hs]

/-- C3: `CapitalAllocator.allocate` raises iff the portfolio value is
negative, or some weighted symbol has no price, or some weighted symbol's
price is ≤ 0; otherwise it returns, for every weighted symbol in order,
`target_notional = portfolio_value * weight` and
`target_units = target_notional / price`, with no rounding applied. -/
theorem c3_allocate_errors_and_outputs (weights prices : Dict) (portfolio_value : ℚ) :
    ((∃ e, allocate weights portfolio_value prices = .error e) ↔
      portfolio_value < 0 ∨
      ∃ sw ∈ weights, prices.lookup sw.1 = none ∨
        ∃ px, prices.lookup sw.1 = some px ∧ px ≤ 0) ∧
    (∀ out, allocate weights portfolio_value prices = .ok out →
      out = weights.map (expectedAllocation portfolio_value prices)) := by
  by_cases hpv : portfolio_value < 0
  · constructor
    · constructor
      · intro _; exact Or.inl hpv
      · intro _; exact ⟨.negativePortfolioValue, by simp [allocate, hpv]⟩
    · intro out hout
      simp [allocate, hpv] at hout
  · have hall : allocate weights portfolio_value prices
        = allocateSymbols portfolio_value prices weights := by
      simp [allocate, hpv]
    rw [hall] at *
    constructor
    · rw [(allocateSymbols_spec portfolio_value prices weights).1]
      constructor
      · intro h; exact Or.inr h
      · rintro (h | h)
        · exact absurd h hpv
        · exact h
    · exact (allocateSymbols_spec portfolio_value prices weights).2

/-- Witness for C3 at the spec's example: weights `{SPY: 0.6, TLT: 0.4}`,
portfolio value 1000, prices 100 each give 6 SPY units and 4 TLT units. -/
theorem c3_allocate_witness :
    allocate [("SPY", (3 : ℚ)/5), ("TLT", (2 : ℚ)/5)] 1000 [("SPY", 100), ("TLT", 100)]
      = .ok ([("SPY", (3 : ℚ)/5), ("TLT", (2 : ℚ)/5)].map
          (expectedAllocation 1000 [("SPY", 100), ("TLT", 100)])) := by
  have hok : allocate [("SPY", (3 : ℚ)/5), ("TLT", (2 : ℚ)/5)] 1000
      [("SPY", 100), ("TLT", 100)] = .ok [("SPY", ⟨3/5, 600, 6⟩), ("TLT", ⟨2/5, 400, 4⟩)] := by
    simp only [allocate, allocateSymbols, List.lookup, Bind.bind, Except.bind,
      String.reduceBEq]
    norm_num
  have h := (c3_allocate_errors_and_outputs [("SPY", (3 : ℚ)/5), ("TLT", (2 : ℚ)/5)]
    [("SPY", 100), ("TLT", 100)] 1000).2 _ hok
  rw [hok, h]

/-! ## C9: trade-delta generation -/

theorem strLe_trans : ∀ a b c : String, strLe a b = true → strLe b c = true →
    strLe a c = true := by
  intro a b c h1 h2
  simp only [strLe, decide_eq_true_eq] at *
  exact le_trans h1 h2

theorem strLe_total : ∀ a b : String, (strLe a b || strLe b a) = true := by
  intro a b
  simp only [strLe, Bool.or_eq_true, decide_eq_true_eq]
  exact le_total a b

theorem sortedSymbolUnion_sorted (a b : Dict) :
    (sortedSymbolUnion a b).Sorted (· ≤ ·) := by
  have h := List.sorted_mergeSort strLe_trans strLe_total
    ((dKeys a ++ dKeys b).dedup)
  exact h.imp (fun hab => by simpa [strLe] using hab)

theorem sortedSymbolUnion_perm (a b : Dict) :
    (sortedSymbolUnion a b).Perm ((dKeys a ++ dKeys b).dedup) :=
  List.mergeSort_perm _ _

theorem sortedSymbolUnion_nodup (a b : Dict) :
    (sortedSymbolUnion a b).Nodup :=
  (sortedSymbolUnion_perm a b).nodup_iff.mpr (List.nodup_dedup _)

theorem mem_sortedSymbolUnion (a b : Dict) (s : String) :
    s ∈ sortedSymbolUnion a b ↔ s ∈ dKeys a ∨ s ∈ dKeys b := by
  rw [(sortedSymbolUnion_perm a b).mem_iff, List.mem_dedup, List.mem_append]

theorem sortedSymbolUnion_comm (a b : Dict) :
    sortedSymbolUnion a b = sortedSymbolUnion b a := by
  have hperm : (sortedSymbolUnion a b).Perm (sortedSymbolUnion b a) := by
    refine ((sortedSymbolUnion_perm a b).trans ?_).trans
      (sortedSymbolUnion_perm b a).symm
    exact (List.perm_append_comm).dedup
  exact List.eq_of_perm_of_sorted hperm
    (sortedSymbolUnion_sorted a b) (sortedSymbolUnion_sorted b a)

theorem lookup_map_self (l : List String) (f : String → ℚ) (s : String) :
    (l.map (fun t => (t, f t))).lookup s = if s ∈ l then some (f s) else none := by
  induction l with
  | nil => simp
  | cons t ts ih =>
    by_cases h : s = t
    · subst h
      simp [List.lookup]
    · have hbeq : (s == t) = false := by
        simp [h]
      simp [List.lookup, hbeq, ih, h]

/-- C9: `generate_trades` is defined on the union of the two symbol sets
with absent entries defaulting to 0, produces
`trade[symbol] = target_units − current_units` with keys in sorted symbol
order, and is antisymmetric under reversal: swapping the arguments
negates every delta over the same symbol set. -/
theorem c9_generate_trades_union_and_antisymmetry (current target : Dict) :
    (∀ s, (generateTrades current target).lookup s =
        if s ∈ dKeys current ∨ s ∈ dKeys target
        then some (dGetD target s - dGetD current s) else none) ∧
    ((generateTrades current target).map Prod.fst).Sorted (· ≤ ·) ∧
    generateTrades target current =
      (generateTrades current target).map (fun sv => (sv.1, -sv.2)) := by
  refine ⟨?_, ?_, ?_⟩
  · intro s
    rw [generateTrades, lookup_map_self]
    by_cases h : s ∈ dKeys current ∨ s ∈ dKeys target
    · rw [if_pos ((mem_sortedSymbolUnion current target s).mpr h), if_pos h]
    · rw [if_neg (fun h' => h ((mem_sortedSymbolUnion current target s).mp h')),
        if_neg h]
  · have hkeys : (generateTrades current target).map Prod.fst
        = sortedSymbolUnion current target := by
      simp [generateTrades, List.map_map, Function.comp_def]
    rw [hkeys]
    exact sortedSymbolUnion_sorted current target
  · rw [generateTrades, generateTrades, sortedSymbolUnion_comm target current,
      List.map_map]
    refine List.map_congr_left ?_
    intro s _
    simp [neg_sub]

/-! ## C6: config normalizer idempotence -/

theorem normalize_passthrough (y : PyDict) (hy : pyHasKey y "allocation_model" = true) :
    normalizeLegacyConfig y = .ok y := by
  unfold normalizeLegacyConfig
  rw [if_pos hy]

/-- C6: the config normalizer is idempotent —
`normalize(normalize(x))` agrees with `normalize(x)` for every raw
configuration mapping (composition via `bind` also propagates the raised
error when the legacy shape is malformed), and any input already
containing an `allocation_model` key is returned unchanged. -/
theorem c6_normalize_idempotent (x : PyDict) :
    (normalizeLegacyConfig x).bind normalizeLegacyConfig = normalizeLegacyConfig x ∧
    (pyHasKey x "allocation_model" = true → normalizeLegacyConfig x = .ok x) := by
  refine ⟨?_, normalize_passthrough x⟩
  by_cases hx : pyHasKey x "allocation_model" = true
  · rw [normalize_passthrough x hx]
    exact normalize_passthrough x hx
  · have hx' : pyHasKey x "allocation_model" = false := by
      simpa using hx
    rw [normalizeLegacyConfig]
    rw [if_neg (by simp [hx'])]
    cases h1 : asPyDict (pyGetD x "strategy" (PyVal.dict [])) with
    | error e => simp [Bind.bind, Except.bind, h1]
    | ok strategy =>
      cases h2 : asPyDict (pyGetD x "overlays" (PyVal.dict [])) with
      | error e => simp [Bind.bind, Except.bind, h1, h2]
      | ok overlays =>
        cases h3 : asPyDict (pyGetD x "rebalancer" (PyVal.dict [])) with
        | error e => simp [Bind.bind, Except.bind, h1, h2, h3]
        | ok rebalancer =>
          simp only [Bind.bind, Except.bind, h1, h2, h3]
          apply normalize_passthrough
          simp [pyHasKey, List.lookup, String.reduceBEq]

/-- Witness for C6 on a concrete legacy config: normalizing once yields a
canonical mapping, and normalizing the canonical result is a no-op. -/
theorem c6_normalize_idempotent_witness :
    ((normalizeLegacyConfig [("strategy",
        PyVal.dict [("name", PyVal.str "beta_engine_60_40"),
                    ("weights", PyVal.dict [("SPY", PyVal.num (3/5)),
                                            ("TLT", PyVal.num (2/5))])])]).bind
        normalizeLegacyConfig =
      normalizeLegacyConfig [("strategy",
        PyVal.dict [("name", PyVal.str "beta_engine_60_40"),
                    ("weights", PyVal.dict [("SPY", PyVal.num (3/5)),
                                            ("TLT", PyVal.num (2/5))])])]) ∧
    normalizeLegacyConfig [("allocation_model", PyVal.dict [])] =
      .ok [("allocation_model", PyVal.dict [])] :=
  ⟨(c6_normalize_idempotent _).1,
   (c6_normalize_idempotent _).2 (by decide)⟩

/-! ## C7: equal-weight functions are total; descent example -/

theorem equalWeights_of_ne_nil {keys : List String} (h : keys ≠ []) :
    equalWeights keys = keys.map (fun k => (k, (1 : ℚ) / keys.length)) := by
  cases keys with
  | nil => exact absurd rfl h
  | cons k ks => rfl

/-- C7: the equal-weight functions are total and never divide by zero —
an empty sibling set yields the empty mapping `{}`, a non-empty group of
`n` siblings gives each key weight `1/n` (so the group's weights sum to
1); consequently the two-branch chain tree yields leaf weight 0.5 per
branch, summing to 1.0 across the whole tree. -/
theorem c7_equal_weight_totality_and_descent :
    weightWithinGroupDict ([] : List (String × HLevel2)) = [] ∧
    weightWithinGroupList ([] : List String) = [] ∧
    (∀ (α : Type) (g : List (String × α)), g ≠ [] →
      (∀ kv ∈ weightWithinGroupDict g, kv.2 = 1 / g.length) ∧
      ((weightWithinGroupDict g).map Prod.snd).sum = 1) ∧
    (descendWeights twoBranchChainTree).map Prod.snd = [1/2, 1/2] ∧
    ((descendWeights twoBranchChainTree).map Prod.snd).sum = 1 := by
  have heval : (descendWeights twoBranchChainTree).map Prod.snd = [1/2, 1/2] := by
    simp only [descendWeights, twoBranchChainTree, weightWithinGroupDict,
      weightWithinGroupList, equalWeights, List.lookup, String.reduceBEq,
      List.map, List.flatMap, List.length]
    norm_num
  refine ⟨rfl, rfl, ?_, heval, ?_⟩
  · intro α g hg
    have hkeys : g.map Prod.fst ≠ [] := by
      simpa using hg
    have hlen : (g.map Prod.fst).length = g.length := List.length_map _ _
    constructor
    · intro kv hkv
      rw [weightWithinGroupDict, equalWeights_of_ne_nil hkeys] at hkv
      obtain ⟨k, _, hk⟩ := List.mem_map.mp hkv
      rw [← hk, hlen]
    · rw [weightWithinGroupDict, equalWeights_of_ne_nil hkeys]
      have hmap : ((g.map Prod.fst).map
            (fun k => (k, (1 : ℚ) / (g.map Prod.fst).length))).map Prod.snd
          = List.replicate (g.map Prod.fst).length ((1 : ℚ) / (g.map Prod.fst).length) := by
        rw [List.map_map]
        exact List.map_const' _ _
      rw [hmap, List.sum_replicate, hlen]
      have hne : ((g.length : ℚ)) ≠ 0 := by
        have : 0 < g.length := List.length_pos.mpr hg
        exact_mod_cast Nat.pos_iff_ne_zero.mp this
      rw [nsmul_eq_mul]
      field_simp
  · rw [heval]
    norm_num

/-- Witness for C7's non-empty-group clause at a concrete two-element
group. -/
theorem c7_equal_weight_witness :
    ((weightWithinGroupDict [("a", (0 : Nat)), ("b", 1)]).map Prod.snd).sum = 1 :=
  (c7_equal_weight_totality_and_descent.2.2.1 Nat [("a", 0), ("b", 1)] (by simp)).2

/-! ## C8: static portfolio definition validation -/

theorem dedup_const {l : List String} {a : String} (hne : l ≠ [])
    (h : ∀ x ∈ l, x = a) : l.dedup = [a] := by
  induction l with
  | nil => exact absurd rfl hne
  | cons x xs ih =>
    have hx : x = a := h x (List.mem_cons_self _ _)
    cases hxs : xs with
    | nil =>
      subst hx
      rfl
    | cons y ys =>
      have hxs_ne : xs ≠ [] := by simp [hxs]
      have hall : ∀ z ∈ xs, z = a := fun z hz => h z (List.mem_cons_of_mem _ hz)
      have hmem : x ∈ xs := by
        have : a ∈ xs := by
          rw [hxs]
          have := hall y (by simp [hxs])
          simp [hxs] at this ⊢
          left
          exact this.symm
        rwa [hx]
      rw [← hxs, List.dedup_cons_of_mem hmem]
      exact ih hxs_ne hall

/-- C8: deriving node weights for a static portfolio definition succeeds
iff every row's weight is numeric and the weights sum to 1.0 within 1e-9,
returning each node_id mapped to its given weight; sums of 0.999989 and
1.0001 are rejected, as is a portfolio mixing weight_type values. -/
theorem c8_static_weights_validation :
    (∀ rows : List DefRow, (∀ r ∈ rows, r.weight_type = "static") → rows ≠ [] →
      ((∃ out, deriveNodeWeights rows = .ok out) ↔
          (∀ r ∈ rows, r.weight.isSome) ∧
          |(rows.map (fun r => r.weight.getD 0)).sum - 1| ≤ weightTol) ∧
      (∀ out, deriveNodeWeights rows = .ok out →
        out = (rows.map (fun r => (r.node_id, r.weight.getD 0)), "static"))) ∧
    (∀ rows : List DefRow, ∀ r1 ∈ rows, ∀ r2 ∈ rows, r1.weight_type ≠ r2.weight_type →
      ∃ e, deriveNodeWeights rows = .error e) ∧
    (∃ e, deriveNodeWeights [⟨"n1", some (999989/1000000), "static"⟩] = .error e) ∧
    (∃ e, deriveNodeWeights [⟨"n1", some (10001/10000), "static"⟩] = .error e) := by
  refine ⟨?_, ?_, ?_, ?_⟩
  · intro rows hstatic hne
    have hmapne : rows.map (·.weight_type) ≠ [] := by simpa using hne
    have hdd : (rows.map (·.weight_type)).dedup = ["static"] :=
      dedup_const hmapne (by
        intro x hx
        obtain ⟨r, hr, hrx⟩ := List.mem_map.mp hx
        rw [← hrx]
        exact hstatic r hr)
    have hunfold : deriveNodeWeights rows =
        (if rows.any (fun r => r.weight.isNone) then
          .error "Static portfolio requires numeric weight for every row"
        else if |(rows.map (fun r => r.weight.getD 0)).sum - 1| > weightTol then
          .error "Static portfolio weights must sum to 1.0"
        else
          .ok (rows.map (fun r => (r.node_id, r.weight.getD 0)), "static")) := by
      rw [deriveNodeWeights]
      rw [hdd]
      simp
    by_cases hany : rows.any (fun r => r.weight.isNone)
    · have hsomefail : ¬ ∀ r ∈ rows, r.weight.isSome := by
        obtain ⟨r, hr, hnone⟩ := List.any_eq_true.mp hany
        intro hall
        have := hall r hr
        simp [Option.isNone_iff_eq_none.mp hnone] at this
      rw [hunfold, if_pos hany]
      constructor
      · constructor
        · rintro ⟨out, hout⟩
          exact absurd hout (by simp)
        · rintro ⟨hall, _⟩
          exact absurd hall hsomefail
      · intro out hout
        exact absurd hout (by simp)
    · have hall : ∀ r ∈ rows, r.weight.isSome := by
        intro r hr
        by_contra hno
        exact hany (List.any_eq_true.mpr ⟨r, hr, by simpa using hno⟩)
      rw [hunfold, if_neg hany]
      by_cases htol : |(rows.map (fun r => r.weight.getD 0)).sum - 1| > weightTol
      · rw [if_pos htol]
        constructor
        · constructor
          · rintro ⟨out, hout⟩
            exact absurd hout (by simp)
          · rintro ⟨_, hle⟩
            exact absurd htol (not_lt.mpr hle)
        · intro out hout
          exact absurd hout (by simp)
      · rw [if_neg htol]
        constructor
        · constructor
          · intro _
            exact ⟨hall, not_lt.mp htol⟩
          · intro _
            exact ⟨_, rfl⟩
        · intro out hout
          exact (Except.ok.inj hout).symm
  · intro rows r1 hr1 r2 hr2 hne
    refine ⟨"Portfolio contains mixed weight_type values; expected one mode per portfolio", ?_⟩
    cases hdd : (rows.map (·.weight_type)).dedup with
    | nil =>
      rw [deriveNodeWeights, hdd]
    | cons a tl =>
      cases tl with
      | nil =>
        exfalso
        have h1 : r1.weight_type ∈ [a] := by
          rw [← hdd]
          exact List.mem_dedup.mpr (List.mem_map_of_mem _ hr1)
        have h2 : r2.weight_type ∈ [a] := by
          rw [← hdd]
          exact List.mem_dedup.mpr (List.mem_map_of_mem _ hr2)
        simp at h1 h2
        exact hne (h1.trans h2.symm)
      | cons b tl2 =>
        rw [deriveNodeWeights, hdd]
  · refine ⟨"Static portfolio weights must sum to 1.0", ?_⟩
    rw [deriveNodeWeights]
    norm_num [weightTol, abs_le]
  · refine ⟨"Static portfolio weights must sum to 1.0", ?_⟩
    rw [deriveNodeWeights]
    norm_num [weightTol, abs_le]

/-- Witness for C8 at an accepted two-row static definition summing to
exactly 1. -/
theorem c8_static_weights_witness :
    ∃ out, deriveNodeWeights
      [⟨"SPY", some ((3 : ℚ)/5), "static"⟩, ⟨"TLT", some ((2 : ℚ)/5), "static"⟩]
      = .ok out :=
  ((c8_static_weights_validation.1
      [⟨"SPY", some ((3 : ℚ)/5), "static"⟩, ⟨"TLT", some ((2 : ℚ)/5), "static"⟩]
      (by intro r hr; simp at hr; rcases hr with h | h <;> simp [h])
      (by simp)).1).mpr
    ⟨by intro r hr; simp at hr; rcases hr with h | h <;> simp [h],
     by norm_num [weightTol]⟩

/-! ## C5: config (im)mutability under the simulation loop -/

theorem lookup_map_replace (m : PyDict) (k k' : String) (v : PyVal) (h : k ≠ k') :
    (m.map (fun kv => if kv.1 = k' then (k', v) else kv)).lookup k = m.lookup k := by
  induction m with
  | nil => rfl
  | cons kv rest ih =>
    rw [List.map_cons]
    by_cases h1 : kv.1 = k'
    · rw [if_pos h1]
      have hbeq : (k == k') = false := by simp [h]
      have hbeq2 : (k == kv.1) = false := by rw [h1]; exact hbeq
      simp only [List.lookup, hbeq, hbeq2, ih]
    · rw [if_neg h1]
      cases hbeq2 : (k == kv.1) with
      | true => simp [List.lookup, hbeq2]
      | false => simp [List.lookup, hbeq2, ih]

theorem lookup_append_single (m : PyDict) (k k' : String) (v : PyVal) (h : k ≠ k') :
    (m ++ [(k', v)]).lookup k = m.lookup k := by
  induction m with
  | nil =>
    have hbeq : (k == k') = false := by simp [h]
    simp [List.lookup, hbeq]
  | cons kv rest ih =>
    cases hbeq : (k == kv.1) with
    | true => simp [List.lookup, hbeq]
    | false => simp [List.lookup, hbeq, ih]

theorem lookup_pySet_ne (m : PyDict) (k k' : String) (v : PyVal) (h : k ≠ k') :
    (pySet m k' v).lookup k = m.lookup k := by
  unfold pySet
  by_cases hmem : (m.lookup k').isSome
  · rw [if_pos hmem]
    exact lookup_map_replace m k k' v h
  · rw [if_neg hmem]
    exact lookup_append_single m k k' v h

/-- C5 (amended): the frozen `EngineConfig` dataclasses make field
reassignment impossible and `Engine.run()` leaves the config untouched,
but `_simulate_strategy` mutates the parsed config's
`allocation_model.params` mapping before iterating: exactly the key
`"weights"` is overwritten with the portfolio's engine weights, and every
other field and param key of the config is preserved. -/
theorem c5_loop_mutates_only_weights_param (cfg : EngineConfig) (w : Dict) :
    (simulateStrategyConfig cfg w).engine = cfg.engine ∧
    (simulateStrategyConfig cfg w).overlays = cfg.overlays ∧
    (simulateStrategyConfig cfg w).rebalancer = cfg.rebalancer ∧
    (simulateStrategyConfig cfg w).allocator = cfg.allocator ∧
    (simulateStrategyConfig cfg w).constraints = cfg.constraints ∧
    (simulateStrategyConfig cfg w).allocation_model.type = cfg.allocation_model.type ∧
    (simulateStrategyConfig cfg w).allocation_model.params =
      pySet cfg.allocation_model.params "weights"
        (.dict (w.map (fun sv => (sv.1, .num sv.2)))) ∧
    (∀ k, k ≠ "weights" →
      ((simulateStrategyConfig cfg w).allocation_model.params).lookup k =
        (cfg.allocation_model.params).lookup k) := by
  refine ⟨rfl, rfl, rfl, rfl, rfl, rfl, rfl, ?_⟩
  intro k hk
  exact lookup_pySet_ne _ k "weights" _ hk

/-- Witness for C5's amended claim: a non-`"weights"` param key is
preserved by the loop's config mutation. -/
theorem c5_loop_mutates_only_weights_param_witness :
    ((simulateStrategyConfig parsedConfigX [("SPY", (1 : ℚ))]).allocation_model.params).lookup
        "lookback" =
      (parsedConfigX.allocation_model.params).lookup "lookback" :=
  (c5_loop_mutates_only_weights_param parsedConfigX [("SPY", (1 : ℚ))]).2.2.2.2.2.2.2
    "lookback" (by decide)

/-- Counterexample to C5 as stated: a parsed `EngineConfig` is changed by
the backtest simulation loop — `_simulate_strategy` overwrites
`allocation_model.params["weights"]`, so after the call the parsed
config's configured SPY weight is 3/5 where it was 1/2. -/
theorem c5_config_mutation_counterexample :
    parseEngineConfig rawCanonicalConfig = .ok parsedConfigX ∧
    simulateStrategyConfig parsedConfigX [("SPY", (3 : ℚ)/5), ("TLT", (2 : ℚ)/5)]
      ≠ parsedConfigX := by
  constructor
  · rfl
  · intro h
    have h2 := congrArg (fun c => weightsParamOf c "SPY") h
    have e1 : weightsParamOf
        (simulateStrategyConfig parsedConfigX [("SPY", (3 : ℚ)/5), ("TLT", (2 : ℚ)/5)])
        "SPY" = some (3/5) := rfl
    have e2 : weightsParamOf parsedConfigX "SPY" = some (1/2) := rfl
    simp only [e1, e2] at h2
    have h3 : (3 : ℚ)/5 = 1/2 := Option.some.inj h2
    norm_num at h3

/-! ## C10: trade execution conserves same-period equity -/

theorem lookup_none_iff_not_mem (m : Dict) (s : String) :
    m.lookup s = none ↔ s ∉ dKeys m := by
  induction m with
  | nil => simp [dKeys]
  | cons kv rest ih =>
    cases hbeq : (s == kv.1) with
    | true =>
      have : s = kv.1 := by simpa using hbeq
      simp [List.lookup, hbeq, dKeys, this]
    | false =>
      have : ¬ s = kv.1 := by simpa using hbeq
      simp [List.lookup, hbeq, dKeys, this, ih]

theorem dSet_cons_ne (kv : String × ℚ) (rest : Dict) (s : String) (v : ℚ)
    (h : kv.1 ≠ s) :
    dSet (kv :: rest) s v = kv :: dSet rest s v := by
  have hne : s ≠ kv.1 := Ne.symm h
  have hbeq : (s == kv.1) = false := by simp [hne]
  unfold dSet
  rw [show (kv :: rest).lookup s = rest.lookup s by simp [List.lookup, hbeq]]
  by_cases hmem : (rest.lookup s).isSome
  · rw [if_pos hmem, if_pos hmem, List.map_cons, if_neg h]
  · rw [if_neg hmem, if_neg hmem, List.cons_append]

theorem dKeys_dSet_nodup {pos : Dict} {s : String} {v : ℚ}
    (h : (dKeys pos).Nodup) : (dKeys (dSet pos s v)).Nodup := by
  unfold dSet
  by_cases hmem : (pos.lookup s).isSome
  · rw [if_pos hmem]
    have hkeys : dKeys (pos.map (fun kv => if kv.1 = s then (s, v) else kv))
        = dKeys pos := by
      unfold dKeys
      rw [List.map_map]
      refine List.map_congr_left ?_
      intro kv _
      by_cases hks : kv.1 = s
      · simp [hks]
      · simp [hks]
    rw [hkeys]
    exact h
  · rw [if_neg hmem]
    have hnot : s ∉ dKeys pos :=
      (lookup_none_iff_not_mem pos s).mp (Option.not_isSome_iff_eq_none.mp hmem)
    unfold dKeys at *
    rw [List.map_append]
    simp [List.nodup_append, h, hnot]

theorem markSum_dSet (pos : Dict) (px : Dict) (s : String) (du : ℚ)
    (h : (dKeys pos).Nodup) :
    ((dSet pos s (dGetD pos s + du)).map (fun sv => sv.2 * dGetD px sv.1)).sum
      = (pos.map (fun sv => sv.2 * dGetD px sv.1)).sum + du * dGetD px s := by
  induction pos with
  | nil =>
    simp [dSet, dGetD, List.lookup]
  | cons kv rest ih =>
    have hnodup_rest : (dKeys rest).Nodup := (List.nodup_cons.mp h).2
    have hnotmem : kv.1 ∉ dKeys rest := (List.nodup_cons.mp h).1
    by_cases hks : kv.1 = s
    · subst hks
      have hlook : (kv :: rest).lookup kv.1 = some kv.2 := by
        simp [List.lookup]
      have hget : dGetD (kv :: rest) kv.1 = kv.2 := by
        simp [dGetD, hlook]
      have hrest_id : rest.map (fun r => if r.1 = kv.1 then (kv.1, dGetD (kv :: rest) kv.1 + du) else r)
          = rest := by
        refine List.map_congr_left ?_ |>.trans (List.map_id rest)
        intro r hr
        have : r.1 ≠ kv.1 := by
          intro h'
          exact hnotmem (h' ▸ List.mem_map_of_mem Prod.fst hr)
        simp [this]
      rw [dSet, if_pos (by simp [hlook])]
      rw [List.map_cons, if_pos rfl, hrest_id, hget]
      simp [List.map_cons]
      ring
    · rw [dSet_cons_ne kv rest s _ hks]
      have hget : dGetD (kv :: rest) s = dGetD rest s := by
        have hne : s ≠ kv.1 := fun h' => hks h'.symm
        have hbeq : (s == kv.1) = false := by simp [hne]
        simp [dGetD, List.lookup, hbeq]
      rw [hget, List.map_cons, List.map_cons, List.sum_cons, List.sum_cons,
        ih hnodup_rest]
      ring

theorem applyTrades_markValue (px : Dict) :
    ∀ (trades : Dict) (cash : ℚ) (pos : Dict), (dKeys pos).Nodup →
      markValue (applyTrades cash pos trades px).1 (applyTrades cash pos trades px).2 px
        = markValue cash pos px := by
  intro trades
  induction trades with
  | nil =>
    intro cash pos _
    rfl
  | cons sd rest ih =>
    intro cash pos h
    have hstep : applyTrades cash pos (sd :: rest) px
        = applyTrades (cash - sd.2 * dGetD px sd.1)
            (dSet pos sd.1 (dGetD pos sd.1 + sd.2)) rest px := rfl
    rw [hstep, ih _ _ (dKeys_dSet_nodup h)]
    unfold markValue
    rw [markSum_dSet pos px sd.1 sd.2 h]
    ring

theorem engineRun_ok_nonneg {cfg : EngineConfig} {as_of : SimDate} {px : Dict}
    {pv : ℚ} {cur : Dict} {last : Option SimDate} {out : RunOutput}
    (h : engineRun cfg as_of px pv cur last = .ok out) :
    0 ≤ pv ∧ out.should_rebalance = shouldRebalance as_of last := by
  simp only [engineRun, Bind.bind, Except.bind] at h
  cases hb : buildPipeline cfg with
  | error e => rw [hb] at h; cases h
  | ok p =>
    rw [hb] at h
    dsimp only [] at h
    cases ht : targetWeights p.allocation_weights with
    | error e => rw [ht] at h; cases h
    | ok w =>
      rw [ht] at h
      dsimp only [] at h
      cases ha : allocate (applyOverlays p.overlay_count w) pv px with
      | error e => rw [ha] at h; cases h
      | ok a =>
        rw [ha] at h
        dsimp only [] at h
        constructor
        · by_contra hneg
          rw [allocate, if_pos (not_le.mp hneg)] at ha
          cases ha
        · rw [← Except.ok.inj h]

/-- C10 (implicit): in the backtest simulation loop, a successful step
appends post-trade equity equal to the pre-trade mark-to-market portfolio
value computed at step start — on a rebalance period, updating cash by
`−Δunits × price` and positions by `+Δunits` for every trade leaves
`cash + Σ position_units × price` unchanged, so trade execution never
changes same-period equity. -/
theorem c10_trade_execution_conserves_equity (cfg : EngineConfig) (st : SimState)
    (as_of : SimDate) (px : Dict) (st' : SimState)
    (hnodup : (dKeys st.positions).Nodup)
    (hok : simStep cfg st (as_of, px) = .ok st') :
    st'.equity = st.equity ++ [markValue st.cash st.positions px] ∧
    (shouldRebalance as_of st.last_reb = false →
      st'.cash = st.cash ∧ st'.positions = st.positions) := by
  simp only [simStep, Bind.bind, Except.bind] at hok
  cases hrun : engineRun cfg as_of px (markValue st.cash st.positions px)
      st.positions st.last_reb with
  | error e => rw [hrun] at hok; cases hok
  | ok out =>
    rw [hrun] at hok
    dsimp only [] at hok
    have hfire : out.should_rebalance = shouldRebalance as_of st.last_reb :=
      (engineRun_ok_nonneg hrun).2
    by_cases hf : out.should_rebalance = true
    · rw [if_pos hf] at hok
      have hst' := (Except.ok.inj hok).symm
      subst hst'
      refine ⟨?_, ?_⟩
      · simp only []
        rw [applyTrades_markValue px out.trades st.cash st.positions hnodup]
      · intro hnofire
        rw [hnofire] at hfire
        exact absurd hfire (by simp [hf])
    · rw [if_neg hf] at hok
      have hst' := (Except.ok.inj hok).symm
      subst hst'
      exact ⟨rfl, fun _ => ⟨rfl, rfl⟩⟩

/-! ## C4: turnover recording and total turnover -/

/-- C4: in the backtest loop, for every period in which a rebalance
occurs, the recorded per-period turnover equals `Σ|Δunits| × price`
divided by the pre-trade portfolio value (which a successful step
guarantees is ≥ 0), and equals 0 when that portfolio value is 0; no
turnover entry is recorded off-cycle; and the total turnover output is
the plain sum of the per-period fractions, not averaged or annualized. -/
theorem c4_turnover_recording (cfg : EngineConfig) (st : SimState) (as_of : SimDate)
    (px : Dict) (st' : SimState) (out : RunOutput)
    (hrun : engineRun cfg as_of px (markValue st.cash st.positions px) st.positions
      st.last_reb = .ok out)
    (hok : simStep cfg st (as_of, px) = .ok st') :
    (out.should_rebalance = true →
      0 ≤ markValue st.cash st.positions px ∧
      st'.turnover_rows = st.turnover_rows ++
        [if markValue st.cash st.positions px = 0 then 0
         else turnoverNotional out.trades px / markValue st.cash st.positions px]) ∧
    (out.should_rebalance = false → st'.turnover_rows = st.turnover_rows) ∧
    (∀ tickers rows res, simulateStrategy cfg tickers rows = .ok res →
      ∃ fin, simulateLoop (simulateStrategyConfig cfg tickers)
          (initState (dKeys tickers)) rows = .ok fin ∧
        res.2.2 = fin.turnover_rows.sum) := by
  have hpv : 0 ≤ markValue st.cash st.positions px := (engineRun_ok_nonneg hrun).1
  simp only [simStep, Bind.bind, Except.bind] at hok
  rw [hrun] at hok
  dsimp only [] at hok
  refine ⟨?_, ?_, ?_⟩
  · intro hf
    refine ⟨hpv, ?_⟩
    simp only [hf, if_true] at hok
    rw [← Except.ok.inj hok]
    by_cases hz : markValue st.cash st.positions px = 0
    · simp [hz]
    · have hpos : 0 < markValue st.cash st.positions px :=
        lt_of_le_of_ne hpv (Ne.symm hz)
      simp [hz, hpos]
  · intro hf
    simp only [hf, Bool.false_eq_true, if_false] at hok
    rw [← Except.ok.inj hok]
  · intro tickers rows res hsim
    simp only [simulateStrategy, Bind.bind, Except.bind] at hsim
    cases hl : simulateLoop (simulateStrategyConfig cfg tickers)
        (initState (dKeys tickers)) rows with
    | error e => rw [hl] at hsim; cases hsim
    | ok fin =>
      rw [hl] at hsim
      dsimp only [] at hsim
      exact ⟨fin, rfl, by rw [← Except.ok.inj hsim]⟩

/-- Witness for C10: one concrete rebalance step (10000 cash, one symbol
at price 100) trades into 100 units and records post-trade equity equal
to the pre-trade portfolio value. -/
theorem c10_trade_execution_witness :
    ({ cash := 0
       positions := [("SPY", (100 : ℚ))]
       last_reb := some ⟨2026,1,2⟩
       equity := [10000]
       weight_rows := [(⟨2026,1,2⟩, [("SPY", 1)])]
       turnover_rows := [1] } : SimState).equity
      = (initState ["SPY"]).equity ++
        [markValue (initState ["SPY"]).cash (initState ["SPY"]).positions
          [("SPY", 100)]] :=
  (c10_trade_execution_conserves_equity cfgUnit (initState ["SPY"]) ⟨2026,1,2⟩
    [("SPY", 100)]
    { cash := 0
      positions := [("SPY", (100 : ℚ))]
      last_reb := some ⟨2026,1,2⟩
      equity := [10000]
      weight_rows := [(⟨2026,1,2⟩, [("SPY", 1)])]
      turnover_rows := [1] }
    (by decide)
    (by norm_num [simStep, engineRun, buildPipeline, buildAllocationModel, cfgUnit,
      pyWeightsDict, buildParamless, targetWeights, rawTotal, applyOverlays,
      shouldRebalance, allocate, allocateSymbols, generateTrades, sortedSymbolUnion,
      dKeys, dGetD, dSet, markValue, turnoverNotional, applyTrades, initState,
      List.lookup, Bind.bind, Except.bind, String.reduceBEq, List.mapM, List.mapM.loop,
      pure, Except.pure, List.dedup_nil, List.dedup_cons_of_mem,
      List.dedup_cons_of_not_mem, List.mergeSort])).1

/-- Witness for C4 at the same concrete rebalance step: the recorded
turnover entry is `|Δunits| × price / pre-trade value = 10000/10000 = 1`. -/
theorem c4_turnover_recording_witness :
    0 ≤ markValue (initState ["SPY"]).cash (initState ["SPY"]).positions
        [("SPY", 100)] ∧
    ({ cash := 0
       positions := [("SPY", (100 : ℚ))]
       last_reb := some ⟨2026,1,2⟩
       equity := [10000]
       weight_rows := [(⟨2026,1,2⟩, [("SPY", 1)])]
       turnover_rows := [1] } : SimState).turnover_rows
      = (initState ["SPY"]).turnover_rows ++
        [if markValue (initState ["SPY"]).cash (initState ["SPY"]).positions
              [("SPY", 100)] = 0 then 0
         else turnoverNotional ({ as_of_date := ⟨2026,1,2⟩
                                  weights := [("SPY", 1)]
                                  allocations := [("SPY", ⟨1, 10000, 100⟩)]
                                  should_rebalance := true
                                  trades := [("SPY", 100)] } : RunOutput).trades
                [("SPY", 100)]
              / markValue (initState ["SPY"]).cash (initState ["SPY"]).positions
                [("SPY", 100)]] :=
  (c4_turnover_recording cfgUnit (initState ["SPY"]) ⟨2026,1,2⟩ [("SPY", 100)]
    { cash := 0
      positions := [("SPY", (100 : ℚ))]
      last_reb := some ⟨2026,1,2⟩
      equity := [10000]
      weight_rows := [(⟨2026,1,2⟩, [("SPY", 1)])]
      turnover_rows := [1] }
    { as_of_date := ⟨2026,1,2⟩
      weights := [("SPY", 1)]
      allocations := [("SPY", ⟨1, 10000, 100⟩)]
      should_rebalance := true
      trades := [("SPY", 100)] }
    (by norm_num [engineRun, buildPipeline, buildAllocationModel, cfgUnit,
      pyWeightsDict, buildParamless, targetWeights, rawTotal, applyOverlays,
      shouldRebalance, allocate, allocateSymbols, generateTrades, sortedSymbolUnion,
      dKeys, dGetD, dSet, markValue, initState,
      List.lookup, Bind.bind, Except.bind, String.reduceBEq, List.mapM, List.mapM.loop,
      pure, Except.pure, List.dedup_nil, List.dedup_cons_of_mem,
      List.dedup_cons_of_not_mem, List.mergeSort])
    (by norm_num [simStep, engineRun, buildPipeline, buildAllocationModel, cfgUnit,
      pyWeightsDict, buildParamless, targetWeights, rawTotal, applyOverlays,
      shouldRebalance, allocate, allocateSymbols, generateTrades, sortedSymbolUnion,
      dKeys, dGetD, dSet, markValue, turnoverNotional, applyTrades, initState,
      List.lookup, Bind.bind, Except.bind, String.reduceBEq, List.mapM, List.mapM.loop,
      pure, Except.pure, List.dedup_nil, List.dedup_cons_of_mem,
      List.dedup_cons_of_not_mem, List.mergeSort])).1 rfl
